import Mathlib

/-!
Shallow embedding of the update_verifier core of
bootable/recovery (src/update_verifier/update_verifier.cpp), with the
range-set helpers it uses.  Machine strings become Lean `String`s (and
character lists for the parsing helpers), the partition map becomes an
association list, the boot-control HAL and the filesystem become explicit
inputs, and the block-device reads performed by the verifier threads become
a `DevModel` of boolean outcomes.
-/

deriving instance DecidableEq for Except

namespace UV

/-- Whitespace characters, mirroring the C isspace set used by android Trim. -/
def isSpaceChar (c : Char) : Bool :=
  c = ' ' || c = '\t' || c = '\n' || c = '\r' || c = '\x0b' || c = '\x0c'

/-- Trim whitespace from both ends of a character list. -/
def charTrim (cs : List Char) : List Char :=
  ((cs.dropWhile isSpaceChar).reverse.dropWhile isSpaceChar).reverse

/-- android base Trim on a string. -/
def strTrim (s : String) : String := ⟨charTrim s.data⟩

/-- android base Split on a single delimiter character: splitting the empty
string yields one empty piece, matching the C++ helper. -/
def splitChar (c : Char) : List Char → List (List Char)
  | [] => [[]]
  | a :: rest =>
    let r := splitChar c rest
    if a = c then [] :: r
    else
      match r with
      | [] => [[a]]
      | h :: t => (a :: h) :: t

/-- ASCII lower-casing of one character, as strcasecmp does per byte. -/
def charLower (c : Char) : Char :=
  if 'A' ≤ c ∧ c ≤ 'Z' then Char.ofNat (c.toNat + 32) else c

/-- android base EqualsIgnoreCase (strcasecmp agreement). -/
def eqIgnoreCase (a b : String) : Bool :=
  a.data.map charLower == b.data.map charLower

/-- Decimal parse of a character list; rejects empty or non-digit input. -/
def parseNat (cs : List Char) : Option Nat :=
  if cs.isEmpty then none
  else if cs.all Char.isDigit then
    some (cs.foldl (fun n c => n * 10 + (c.toNat - 48)) 0)
  else none

/-- Group a list into consecutive pairs; a trailing odd element is dropped
(callers only use this on even-length lists). -/
def toPairs {α : Type} : List α → List (α × α)
  | a :: b :: t => (a, b) :: toPairs t
  | _ => []

/-- A range set is the ordered list of half-open block intervals. -/
abbrev RangeSet := List (Nat × Nat)

/-- Modelled from the spec: RangeSet parsing lives in the otautil range-set
header, which is not among the provided sources.  Per the spec: the encoding
is a leading integer count, even and non-negative, followed by exactly count
comma-separated non-negative integers forming count/2 pairs (start, end) in
textual order; a malformed integer, a wrong token count, an odd count, or a
pair with start ≥ end is a parse failure; count 0 yields the empty set,
distinct from failure. -/
def rangeSetParseChars (cs : List Char) : Option RangeSet :=
  match splitChar ',' cs with
  | [] => none
  | c :: rest =>
    match parseNat c with
    | none => none
    | some count =>
      if count % 2 ≠ 0 then none
      else if rest.length ≠ count then none
      else
        match rest.mapM parseNat with
        | none => none
        | some nums =>
          let ps := toPairs nums
          if ps.all (fun p => p.1 < p.2) then some ps else none

/-- RangeSet parsing on strings. -/
def rangeSetParse (s : String) : Option RangeSet := rangeSetParseChars s.data

/-- Number of blocks covered by one (start, end) pair. -/
def rangeBlocks (p : Nat × Nat) : Nat := p.2 - p.1

/-- Total number of blocks in a range set. -/
def totalBlocks (rs : RangeSet) : Nat := (rs.map rangeBlocks).sum

/-- Take a minimal non-empty prefix of the pair list whose block count
reaches the target, returning it together with the remaining pairs. -/
def takeGroup : RangeSet → Nat → RangeSet × RangeSet
  | [], _ => ([], [])
  | p :: rest, target =>
    if target ≤ rangeBlocks p then ([p], rest)
    else
      let pr := takeGroup rest (target - rangeBlocks p)
      (p :: pr.1, pr.2)

/-- Peel off one target-sized group per requested slot; the last group holds
whatever remains. -/
def splitGo : Nat → RangeSet → Nat → List RangeSet
  | 0, _, _ => []
  | 1, rs, _ => [rs]
  | g + 2, rs, target =>
    let pr := takeGroup rs target
    pr.1 :: splitGo (g + 1) pr.2 target

/-- Modelled from the spec: RangeSet splitting lives in the otautil range-set
header, which is not among the provided sources.  Per the spec: the pairs are
distributed across the requested number of groups by a greedy contiguous
partition of the pair sequence with roughly equal block counts, the last
group holding the remainder; no pair is reordered or split across groups. -/
def rangeSetSplit (rs : RangeSet) (groups : Nat) : List RangeSet :=
  splitGo groups rs (totalBlocks rs / groups)

/-- The multiset of blocks of a range set, as the list of block indices in
range order. -/
def blockList (rs : RangeSet) : List Nat :=
  rs.flatMap (fun p => List.range' p.1 (p.2 - p.1))

/-- Outcome model of one opened block device: whether open succeeds, whether
an lseek to a byte offset succeeds, and whether a full read of a given length
at a given byte offset succeeds. -/
structure DevModel where
  openOk : Bool
  seekOk : Nat → Bool
  readOk : Nat → Nat → Bool

/-- Filesystem block size used by the verifier. -/
def kBlockSize : Nat := 4096

/-- Size of the read buffer: 1024 blocks. -/
def chunkBytes : Nat := 1024 * kBlockSize

/-- The chunked read loop of the verifier thread: while bytes remain, read
min(remain, chunkBytes) at the current offset.  The first argument is fuel;
callers pass the remaining byte count, which bounds the iteration count since
every chunk is at least one byte. -/
def readChunksGo (d : DevModel) : Nat → Nat → Nat → Bool
  | _, _, 0 => true
  | 0, _, _ => false
  | fuel + 1, off, remain =>
    let t := min remain chunkBytes
    d.readOk off t && readChunksGo d fuel (off + t) (remain - t)

/-- Read `remain` bytes at byte offset `off` in bounded chunks. -/
def readChunks (d : DevModel) (off remain : Nat) : Bool :=
  readChunksGo d remain off remain

/-- The per-range loop of one verifier thread: seek to the range start and
read the whole range in chunks; any failure aborts the unit. -/
def unitRanges (d : DevModel) : RangeSet → Bool
  | [] => true
  | (s, e) :: rest =>
    if !d.seekOk (s * kBlockSize) then false
    else if !readChunks d (s * kBlockSize) ((e - s) * kBlockSize) then false
    else unitRanges d rest

/-- One unit of work of UpdateVerifier::ReadBlocks: open the dm block device
read-only, then walk the ranges of this group. -/
def unitRead (d : DevModel) (group : RangeSet) : Bool :=
  if !d.openOk then false else unitRanges d group

/-- thread_num = hardware_concurrency() ?: 4. -/
def threadCount (hw : Nat) : Nat := if hw = 0 then 4 else hw

/-- UpdateVerifier::ReadBlocks: split the ranges into thread_num groups, run
one unit of work per group, and join the results with `ret = t.get() && ret`. -/
def ReadBlocks (d : DevModel) (ranges : RangeSet) (hw : Nat) : Bool :=
  ((rangeSetSplit ranges (threadCount hw)).map (fun g => unitRead d g)).foldl
    (fun ret r => r && ret) true

/-- First-match lookup in an association list, as std::map find. -/
def assocFind {β : Type} : List (String × β) → String → Option β
  | [], _ => none
  | (k', v) :: rest, k => if k' = k then some v else assocFind rest k

/-- std::map emplace: insert only when the key is not already present. -/
def assocEmplace {β : Type} (m : List (String × β)) (k : String) (v : β) :
    List (String × β) :=
  match assocFind m k with
  | some _ => m
  | none => m ++ [(k, v)]

/-- AVB uses vroot for the root block device but the care map says system. -/
def renameVroot (n : String) : String := if n = "vroot" then "system" else n

/-- The logical name recorded for a dm sidecar file content: trim, then apply
the vroot rename. -/
def processedName (content : String) : String := renameVroot (strTrim content)

/-- Process one scandir entry of UpdateVerifier::FindDmPartitions: an entry
whose dm/name sidecar could not be read is skipped; otherwise the processed
name is emplaced with the /dev/block device node path. -/
def addDmEntry (m : List (String × String)) (e : String × Option String) :
    List (String × String) :=
  match e.2 with
  | none => m
  | some c => assocEmplace m (processedName c) ("/dev/block/" ++ e.1)

/-- Fold the entries in the order the while (n--) loop visits them. -/
def addDmEntries (m : List (String × String)) :
    List (String × Option String) → List (String × String)
  | [] => m
  | e :: rest => addDmEntries (addDmEntry m e) rest

/-- UpdateVerifier::FindDmPartitions.  The input models the alphasorted
scandir listing of /sys/block entries named dm-N, paired with the content of
each dm/name sidecar when readable; the loop `while (n--)` visits the sorted
listing in reverse. -/
def FindDmPartitions (entries : List (String × Option String)) :
    List (String × String) :=
  addDmEntries [] entries.reverse

/-- The per-partition loop of UpdateVerifier::VerifyPartitions: look up the
dm block device of each care-map partition and read its blocks; a missing
device or a failed read aborts with failure. -/
def verifyLoop (dm : List (String × String)) (devOf : String → DevModel)
    (hw : Nat) : List (String × RangeSet) → Bool
  | [] => true
  | (name, ranges) :: rest =>
    match assocFind dm name with
    | none => false
    | some path =>
      if !ReadBlocks (devOf path) ranges hw then false
      else verifyLoop dm devOf hw rest

/-- UpdateVerifier::VerifyPartitions: discover the dm block devices (an empty
mapping is a failure), then verify every partition of the care map.
`devOf` models what reading each device path yields. -/
def VerifyPartitions (entries : List (String × Option String))
    (pm : List (String × RangeSet)) (devOf : String → DevModel) (hw : Nat) :
    Bool :=
  if (FindDmPartitions entries).isEmpty then false
  else verifyLoop (FindDmPartitions entries) devOf hw pm

/-- Classification of the care-map parse failure sites.  The C++ functions
return a bare bool, but each failure site carries a distinct log message; the
constructors tag those sites: Unavailable for an absent, unreadable or empty
file, LegacyIncompatible for the legacy /dev/block care_map.txt, Malformed
for every other rejection. -/
inductive CareMapError
  | Unavailable
  | Malformed
  | LegacyIncompatible
deriving DecidableEq

/-- The legacy device-path marker checked on plain-text partition names. -/
def legacyPathStart : List Char := "/dev/block/".data

/-- The pair loop of UpdateVerifier::ParseCareMapPlainText: for each
(name, ranges) record in order, reject a legacy /dev/block name as
LegacyIncompatible, reject an unparsable range string as Malformed, and
otherwise emplace the pair into the partition map. -/
def parsePairs : List (List Char × List Char) → List (String × RangeSet) →
    Except CareMapError (List (String × RangeSet))
  | [], acc => .ok acc
  | (nameCs, rangeCs) :: rest, acc =>
    if legacyPathStart.isPrefixOf nameCs then .error .LegacyIncompatible
    else
      match rangeSetParseChars rangeCs with
      | none => .error .Malformed
      | some r => parsePairs rest (assocEmplace acc ⟨nameCs⟩ r)

/-- UpdateVerifier::ParseCareMapPlainText: trim the content, split on
newlines, require exactly 2, 4 or 6 lines (else Malformed), then run the
pair loop. -/
def ParseCareMapPlainText (content : String) :
    Except CareMapError (List (String × RangeSet)) :=
  if (splitChar '\n' (charTrim content.data)).length = 2 ∨
      (splitChar '\n' (charTrim content.data)).length = 4 ∨
      (splitChar '\n' (charTrim content.data)).length = 6 then
    parsePairs (toPairs (splitChar '\n' (charTrim content.data))) []
  else .error .Malformed

/-- The HIDL boot-control tri-state result. -/
inductive BoolResult
  | FALSE
  | TRUE
  | INVALID_SLOT
deriving DecidableEq

/-- The boot-control HAL as seen by one run: the current slot, what
isSlotMarkedSuccessful reports for it, and whether markBootSuccessful
reports success. -/
structure BootCtrl where
  currentSlot : Nat
  isSuccessful : BoolResult
  markSuccess : Bool

/-- The environment of one update_verifier run: the boot-control service
(none when getService fails), the ro.boot.veritymode property, the outcome
of ParseCareMap on the on-disk care map, the dm device listing, the device
read model, and the hardware concurrency. -/
structure Env where
  bootCtrl : Option BootCtrl
  verityMode : String
  careMap : Except CareMapError (List (String × RangeSet))
  dmEntries : List (String × Option String)
  devOf : String → DevModel
  hwConcurrency : Nat

/-- Observable outcome of one run: whether reboot_device was reached,
whether ParseCareMap, VerifyPartitions and markBootSuccessful were called,
and the normal exit code (none when the run ends in reboot_device, which
never returns). -/
structure RunResult where
  rebootRequested : Bool
  parseCalled : Bool
  verifyCalled : Bool
  markCalled : Bool
  exitCode : Option Int
deriving DecidableEq

/-- The verity-mode dispatch of update_verifier: empty → skip, eio
(case-insensitive) → verify, disabled (case-insensitive) → skip, any other
string different from the exact "enforcing" → reboot, "enforcing" → verify. -/
inductive ModeDecision
  | skip
  | run
  | reboot
deriving DecidableEq

/-- The skip_verification / reboot selection on ro.boot.veritymode. -/
def modeDecision (mode : String) : ModeDecision :=
  if mode = "" then .skip
  else if eqIgnoreCase mode "eio" then .run
  else if eqIgnoreCase mode "disabled" then .skip
  else if mode ≠ "enforcing" then .reboot
  else .run

/-- The tail of the run: call markBootSuccessful; failure to mark ends in
reboot_device, success exits 0. -/
def markPhase (bc : BootCtrl) (parseCalled verifyCalled : Bool) : RunResult :=
  if bc.markSuccess then ⟨false, parseCalled, verifyCalled, true, some 0⟩
  else ⟨true, parseCalled, verifyCalled, true, none⟩

/-- The update_verifier entry point over an explicit environment, mirroring
the control flow of the C++ function: missing boot-control service →
reboot; slot not FALSE → exit 0 untouched; otherwise dispatch on the verity
mode, parse the care map when verifying, verify the partitions, and finish
with markBootSuccessful. -/
def update_verifier (env : Env) : RunResult :=
  match env.bootCtrl with
  | none => ⟨true, false, false, false, none⟩
  | some bc =>
    if bc.isSuccessful = BoolResult.FALSE then
      match modeDecision env.verityMode with
      | .reboot => ⟨true, false, false, false, none⟩
      | .skip => markPhase bc false false
      | .run =>
        match env.careMap with
        | .error _ => markPhase bc true false
        | .ok manifest =>
          if VerifyPartitions env.dmEntries manifest env.devOf
              env.hwConcurrency then
            markPhase bc true true
          else ⟨true, true, true, false, none⟩
    else ⟨false, false, false, false, some 0⟩

/-- A device on which every operation succeeds, for concrete runs. -/
def devAllOk : DevModel := ⟨true, fun _ => true, fun _ _ => true⟩

example : rangeSetParse "0" = some [] := by decide
example : rangeSetParse "3,1,2,3" = none := by decide
example : rangeSetParse "4,10,5,20,30" = none := by decide
example : rangeSetParse "4,64536,65343,74149,74150" =
    some [(64536, 65343), (74149, 74150)] := by decide

/-- Claim C1: in every run whose verity mode is the string enforcing and in
which VerifyPartitions (called on the successfully parsed care map) returns
failure, the orchestrator requests a reboot and markBootSuccessful is never
called. -/
theorem c1_enforcing_verify_fail_reboots (env : Env) (bc : BootCtrl)
    (m : List (String × RangeSet))
    (hb : env.bootCtrl = some bc) (hs : bc.isSuccessful = BoolResult.FALSE)
    (hm : env.verityMode = "enforcing") (hc : env.careMap = Except.ok m)
    (hv : VerifyPartitions env.dmEntries m env.devOf env.hwConcurrency =
      false) :
    (update_verifier env).rebootRequested = true ∧
      (update_verifier env).markCalled = false := by
  have hmode : modeDecision "enforcing" = ModeDecision.run := by decide
  simp [update_verifier, hb, hs, hm, hmode, hc, hv]

/-- Witness for C1 at a concrete environment with no dm devices, so that
VerifyPartitions fails. -/
theorem c1_enforcing_verify_fail_reboots_w :
    VerifyPartitions [] [("system", [(0, 1)])] (fun _ => devAllOk) 4 =
        false ∧
      (update_verifier ⟨some ⟨0, BoolResult.FALSE, true⟩, "enforcing",
          Except.ok [("system", [(0, 1)])], [], (fun _ => devAllOk),
          4⟩).rebootRequested = true ∧
      (update_verifier ⟨some ⟨0, BoolResult.FALSE, true⟩, "enforcing",
          Except.ok [("system", [(0, 1)])], [], (fun _ => devAllOk),
          4⟩).markCalled = false :=
  ⟨by decide,
    c1_enforcing_verify_fail_reboots _ ⟨0, BoolResult.FALSE, true⟩ _
      rfl rfl rfl rfl (by decide)⟩

/-- Claim C2: in every run that reaches care-map parsing, a parse failure of
any classification makes the orchestrator skip verification and still
proceed to attempt mark-successful; the run reboots only when that
mark-successful call itself fails. -/
theorem c2_parse_failure_still_marks (env : Env) (bc : BootCtrl)
    (e : CareMapError)
    (hb : env.bootCtrl = some bc) (hs : bc.isSuccessful = BoolResult.FALSE)
    (hr : modeDecision env.verityMode = ModeDecision.run)
    (hc : env.careMap = Except.error e) :
    (update_verifier env).parseCalled = true ∧
      (update_verifier env).verifyCalled = false ∧
      (update_verifier env).markCalled = true ∧
      (update_verifier env).rebootRequested = !bc.markSuccess := by
  cases h : bc.markSuccess <;>
    simp [update_verifier, hb, hs, hr, hc, markPhase, h]

/-- Witness for C2 at a concrete environment in eio mode with a missing
care map: the slot is still marked and no reboot is requested. -/
theorem c2_parse_failure_still_marks_w :
    modeDecision "eio" = ModeDecision.run ∧
      (update_verifier ⟨some ⟨0, BoolResult.FALSE, true⟩, "eio",
          Except.error CareMapError.Unavailable, [], (fun _ => devAllOk),
          4⟩).parseCalled = true ∧
      (update_verifier ⟨some ⟨0, BoolResult.FALSE, true⟩, "eio",
          Except.error CareMapError.Unavailable, [], (fun _ => devAllOk),
          4⟩).verifyCalled = false ∧
      (update_verifier ⟨some ⟨0, BoolResult.FALSE, true⟩, "eio",
          Except.error CareMapError.Unavailable, [], (fun _ => devAllOk),
          4⟩).markCalled = true ∧
      (update_verifier ⟨some ⟨0, BoolResult.FALSE, true⟩, "eio",
          Except.error CareMapError.Unavailable, [], (fun _ => devAllOk),
          4⟩).rebootRequested = !(true : Bool) :=
  ⟨by decide,
    c2_parse_failure_still_marks _ ⟨0, BoolResult.FALSE, true⟩
      CareMapError.Unavailable rfl rfl (by decide) rfl⟩

/-- Counterexample to claim C7 as stated: the mode string EIO differs from
all four of the listed strings, yet the orchestrator runs verification and
calls mark-successful instead of rebooting directly, because the eio
comparison in the source is case-insensitive. -/
theorem c7_counterexample :
    (("EIO" : String) ≠ "" ∧ ("EIO" : String) ≠ "disabled" ∧
        ("EIO" : String) ≠ "eio" ∧ ("EIO" : String) ≠ "enforcing") ∧
      update_verifier ⟨some ⟨0, BoolResult.FALSE, true⟩, "EIO",
          Except.ok [("system", [(0, 1)])], [("dm-0", some "system")],
          (fun _ => devAllOk), 1⟩ =
        ⟨false, true, true, true, some 0⟩ := by decide

/-- Claim C7 as amended: for every verity-mode string that is non-empty, is
not a case-insensitive match of eio or disabled, and is not exactly the
string enforcing, the orchestrator requests a reboot directly, without
attempting verification and without calling mark-successful. -/
theorem c7_unexpected_mode_reboots (env : Env) (bc : BootCtrl)
    (hb : env.bootCtrl = some bc) (hs : bc.isSuccessful = BoolResult.FALSE)
    (h1 : env.verityMode ≠ "")
    (h2 : eqIgnoreCase env.verityMode "eio" = false)
    (h3 : eqIgnoreCase env.verityMode "disabled" = false)
    (h4 : env.verityMode ≠ "enforcing") :
    update_verifier env = ⟨true, false, false, false, none⟩ := by
  have hmode : modeDecision env.verityMode = ModeDecision.reboot := by
    simp [modeDecision, h1, h2, h3, h4]
  simp [update_verifier, hb, hs, hmode]

/-- Witness for the amended C7 at the concrete mode string foobar. -/
theorem c7_unexpected_mode_reboots_w :
    (("foobar" : String) ≠ "" ∧ eqIgnoreCase "foobar" "eio" = false ∧
        eqIgnoreCase "foobar" "disabled" = false ∧
        ("foobar" : String) ≠ "enforcing") ∧
      update_verifier ⟨some ⟨0, BoolResult.FALSE, true⟩, "foobar",
          Except.error CareMapError.Unavailable, [], (fun _ => devAllOk),
          4⟩ =
        ⟨true, false, false, false, none⟩ :=
  ⟨by decide,
    c7_unexpected_mode_reboots _ ⟨0, BoolResult.FALSE, true⟩ rfl rfl
      (by decide) (by decide) (by decide) (by decide)⟩

/-- Claim C8: in every run whose slot is already marked successful, no
care-map parse is attempted, no reboot is requested, and the process exits
with status 0. -/
theorem c8_already_marked_exits_zero (env : Env) (bc : BootCtrl)
    (hb : env.bootCtrl = some bc) (hs : bc.isSuccessful = BoolResult.TRUE) :
    (update_verifier env).parseCalled = false ∧
      (update_verifier env).rebootRequested = false ∧
      (update_verifier env).exitCode = some 0 := by
  simp [update_verifier, hb, hs]

/-- Witness for C8 at a concrete environment. -/
theorem c8_already_marked_exits_zero_w :
    (update_verifier ⟨some ⟨0, BoolResult.TRUE, true⟩, "enforcing",
        Except.ok [("system", [(0, 1)])], [("dm-0", some "system")],
        (fun _ => devAllOk), 4⟩).parseCalled = false ∧
      (update_verifier ⟨some ⟨0, BoolResult.TRUE, true⟩, "enforcing",
          Except.ok [("system", [(0, 1)])], [("dm-0", some "system")],
          (fun _ => devAllOk), 4⟩).rebootRequested = false ∧
      (update_verifier ⟨some ⟨0, BoolResult.TRUE, true⟩, "enforcing",
          Except.ok [("system", [(0, 1)])], [("dm-0", some "system")],
          (fun _ => devAllOk), 4⟩).exitCode = some 0 :=
  c8_already_marked_exits_zero _ ⟨0, BoolResult.TRUE, true⟩ rfl rfl

/-- The join loop `ret = t.get() && ret` computes the conjunction of the
accumulator with every collected result. -/
theorem foldl_and_eq (l : List Bool) (b : Bool) :
    l.foldl (fun ret r => r && ret) b = (b && l.all id) := by
  induction l generalizing b with
  | nil => simp
  | cons a t ih =>
    rw [List.foldl_cons, ih]
    cases a <;> cases b <;> simp

/-- Claim C5: ReadBlocks runs one unit of work per range group and combines
the joined results with logical AND: it returns true exactly when every
group's unit of work succeeded. -/
theorem c5_readblocks_iff_all_groups (d : DevModel) (ranges : RangeSet)
    (hw : Nat) :
    ReadBlocks d ranges hw = true ↔
      ∀ g ∈ rangeSetSplit ranges (threadCount hw), unitRead d g = true := by
  unfold ReadBlocks
  rw [foldl_and_eq]
  simp

/-- The partition loop fails whenever some care-map partition has no dm
block device. -/
theorem verifyLoop_missing (dm : List (String × String))
    (devOf : String → DevModel) (hw : Nat) (name : String)
    (hnone : assocFind dm name = none) :
    ∀ pm : List (String × RangeSet), name ∈ pm.map Prod.fst →
      verifyLoop dm devOf hw pm = false := by
  intro pm
  induction pm with
  | nil => simp
  | cons hd tl ih =>
    intro hmem
    obtain ⟨n, r⟩ := hd
    simp only [List.map_cons, List.mem_cons] at hmem
    unfold verifyLoop
    rcases hmem with h | h
    · subst h
      rw [hnone]
    · cases hfind : assocFind dm n with
      | none => rfl
      | some path =>
        cases hrb : ReadBlocks (devOf path) r hw with
        | false => simp [hrb]
        | true => simpa [hrb] using ih h

/-- Claim C4: for every manifest and every discovered device mapping, if
some partition named in the manifest is absent from the device mapping then
VerifyPartitions returns failure. -/
theorem c4_missing_partition_fails (entries : List (String × Option String))
    (pm : List (String × RangeSet)) (devOf : String → DevModel) (hw : Nat)
    (name : String) (hmem : name ∈ pm.map Prod.fst)
    (hnone : assocFind (FindDmPartitions entries) name = none) :
    VerifyPartitions entries pm devOf hw = false := by
  unfold VerifyPartitions
  split
  · rfl
  · exact verifyLoop_missing _ _ _ _ hnone pm hmem

/-- Witness for C4: the care map names system but only a vendor dm device is
discovered. -/
theorem c4_missing_partition_fails_w :
    ("system" ∈ ([("system", [(0, 1)])] :
        List (String × RangeSet)).map Prod.fst) ∧
      assocFind (FindDmPartitions [("dm-0", some "vendor")]) "system" =
        none ∧
      VerifyPartitions [("dm-0", some "vendor")] [("system", [(0, 1)])]
        (fun _ => devAllOk) 1 = false :=
  ⟨by decide, by decide,
    c4_missing_partition_fails _ _ _ _ "system" (by decide) (by decide)⟩

/-- Counterexample to claim C3 as stated: in this four-line manifest the
partition-name line at index 2 begins with /dev/block/, yet the parse is
rejected as Malformed, because the first pair's unparsable range string is
hit before the legacy check of the second pair. -/
theorem c3_counterexample :
    ParseCareMapPlainText "foo\nbad\n/dev/block/sda\n2,0,2" =
        Except.error CareMapError.Malformed ∧
      splitChar '\n' (charTrim ("foo\nbad\n/dev/block/sda\n2,0,2").data) =
        ["foo".data, "bad".data, "/dev/block/sda".data, "2,0,2".data] ∧
      legacyPathStart.isPrefixOf ("/dev/block/sda".data) = true := by decide

/-- The pair loop reports LegacyIncompatible for a legacy name whenever
every earlier pair is itself legacy or has a parsable range string. -/
theorem parsePairs_legacy (nm rstr : List Char)
    (suf : List (List Char × List Char))
    (hleg : legacyPathStart.isPrefixOf nm = true) :
    ∀ (pre : List (List Char × List Char))
      (acc : List (String × RangeSet)),
      (∀ q ∈ pre, legacyPathStart.isPrefixOf q.1 = true ∨
        (rangeSetParseChars q.2).isSome = true) →
      parsePairs (pre ++ (nm, rstr) :: suf) acc =
        Except.error CareMapError.LegacyIncompatible := by
  intro pre
  induction pre with
  | nil =>
    intro acc _
    simp [parsePairs, hleg]
  | cons q t ih =>
    intro acc hq
    obtain ⟨qn, qr⟩ := q
    have hhead := hq (qn, qr) (by simp)
    rw [List.cons_append]
    unfold parsePairs
    cases hL : legacyPathStart.isPrefixOf qn with
    | true => simp [hL]
    | false =>
      rcases hhead with h | h
      · simp [hL] at h
      · obtain ⟨r, hr⟩ := Option.isSome_iff_exists.mp h
        simp only [hL, Bool.false_eq_true, if_false, hr]
        exact ih _ (fun p hp => hq p (List.mem_cons_of_mem _ hp))

/-- Claim C3 as amended: for every plain-text manifest whose trimmed content
splits into exactly 2, 4 or 6 lines, if some partition-name line begins with
/dev/block/ and every earlier pair either is itself legacy-prefixed or has a
range string that parses, then the manifest is rejected with the
LegacyIncompatible classification, never Malformed. -/
theorem c3_legacy_classified (content : String)
    (pre suf : List (List Char × List Char)) (nm rstr : List Char)
    (hlen : (splitChar '\n' (charTrim content.data)).length = 2 ∨
      (splitChar '\n' (charTrim content.data)).length = 4 ∨
      (splitChar '\n' (charTrim content.data)).length = 6)
    (hsplit : toPairs (splitChar '\n' (charTrim content.data)) =
      pre ++ (nm, rstr) :: suf)
    (hleg : legacyPathStart.isPrefixOf nm = true)
    (hpre : ∀ q ∈ pre, legacyPathStart.isPrefixOf q.1 = true ∨
      (rangeSetParseChars q.2).isSome = true) :
    ParseCareMapPlainText content =
      Except.error CareMapError.LegacyIncompatible := by
  unfold ParseCareMapPlainText
  rw [if_pos hlen, hsplit]
  exact parsePairs_legacy nm rstr suf hleg pre [] hpre

/-- Witness for the amended C3 at a concrete two-line legacy manifest. -/
theorem c3_legacy_classified_w :
    ((splitChar '\n' (charTrim ("/dev/block/sda\n2,0,2").data)).length =
        2 ∨
      (splitChar '\n' (charTrim ("/dev/block/sda\n2,0,2").data)).length =
        4 ∨
      (splitChar '\n' (charTrim ("/dev/block/sda\n2,0,2").data)).length =
        6) ∧
      toPairs (splitChar '\n' (charTrim ("/dev/block/sda\n2,0,2").data)) =
        [] ++ ("/dev/block/sda".data, "2,0,2".data) :: [] ∧
      legacyPathStart.isPrefixOf ("/dev/block/sda".data) = true ∧
      ParseCareMapPlainText "/dev/block/sda\n2,0,2" =
        Except.error CareMapError.LegacyIncompatible :=
  ⟨Or.inl (by decide), by decide, by decide,
    c3_legacy_classified "/dev/block/sda\n2,0,2" [] []
      ("/dev/block/sda".data) ("2,0,2".data) (Or.inl (by decide))
      (by decide) (by decide) (by simp)⟩

/-- Taking one group splits the pair list into a prefix and the rest. -/
theorem takeGroup_append (rs : RangeSet) (t : Nat) :
    (takeGroup rs t).1 ++ (takeGroup rs t).2 = rs := by
  induction rs generalizing t with
  | nil => simp [takeGroup]
  | cons p rest ih =>
    unfold takeGroup
    split
    · simp
    · simp [ih]

/-- Splitting into at least one group concatenates back to the original
pair list. -/
theorem splitGo_flatten (t : Nat) :
    ∀ (g : Nat) (rs : RangeSet), 1 ≤ g → (splitGo g rs t).flatten = rs := by
  intro g
  induction g with
  | zero => intro rs h; omega
  | succ g ih =>
    intro rs _
    cases g with
    | zero => simp [splitGo]
    | succ g' =>
      show (splitGo (g' + 2) rs t).flatten = rs
      unfold splitGo
      rw [List.flatten_cons, ih _ (by omega)]
      exact takeGroup_append rs t

/-- The block multiset distributes over concatenation of pair lists. -/
theorem blockList_append (a b : RangeSet) :
    blockList (a ++ b) = blockList a ++ blockList b := by
  simp [blockList]

/-- The block multiset of a concatenation of groups is the concatenation of
the groups' block multisets. -/
theorem blockList_flatten (L : List RangeSet) :
    blockList L.flatten = (L.map blockList).flatten := by
  induction L with
  | nil => rfl
  | cons a t ih => simp [blockList_append, ih]

/-- Claim C6: for every range set and every number of groups at least 1,
splitting produces groups whose concatenation restores exactly the original
pair sequence (so no pair is split across groups, reordered, lost, or
duplicated), whose blocks taken together are exactly the original blocks,
and, for a range set satisfying the no-duplicate-block invariant, whose
block sets are pairwise disjoint. -/
theorem c6_split_preserves_blocks (rs : RangeSet) (g : Nat) (hg : 1 ≤ g)
    (hnd : (blockList rs).Nodup) :
    (rangeSetSplit rs g).flatten = rs ∧
      blockList ((rangeSetSplit rs g).flatten) = blockList rs ∧
      ((rangeSetSplit rs g).map blockList).Pairwise List.Disjoint := by
  have hfl : (rangeSetSplit rs g).flatten = rs := splitGo_flatten _ g rs hg
  refine ⟨hfl, by rw [hfl], ?_⟩
  have hnodup : ((rangeSetSplit rs g).map blockList).flatten.Nodup := by
    rw [← blockList_flatten, hfl]
    exact hnd
  exact (List.nodup_flatten.mp hnodup).2

/-- Witness for C6 at a concrete two-range set split into two groups. -/
theorem c6_split_preserves_blocks_w :
    (1 ≤ 2) ∧ (blockList [(0, 2), (5, 7)]).Nodup ∧
      ((rangeSetSplit [(0, 2), (5, 7)] 2).flatten = [(0, 2), (5, 7)] ∧
        blockList ((rangeSetSplit [(0, 2), (5, 7)] 2).flatten) =
          blockList [(0, 2), (5, 7)] ∧
        ((rangeSetSplit [(0, 2), (5, 7)] 2).map blockList).Pairwise
          List.Disjoint) :=
  ⟨by decide, by decide,
    c6_split_preserves_blocks [(0, 2), (5, 7)] 2 (by decide) (by decide)⟩

/-- The logical names that discovery will process: one per entry whose
dm/name sidecar was readable, trimmed and with the vroot rename applied. -/
def readableNames (entries : List (String × Option String)) : List String :=
  entries.filterMap (fun e => e.2.map processedName)

/-- A key bound in the left part of an append is found there. -/
theorem assocFind_append_some {β : Type} (m m' : List (String × β))
    (k : String) (v : β) (h : assocFind m k = some v) :
    assocFind (m ++ m') k = some v := by
  induction m with
  | nil => simp [assocFind] at h
  | cons p rest ih =>
    obtain ⟨k', v'⟩ := p
    simp only [List.cons_append, assocFind] at h ⊢
    by_cases hk : k' = k
    · rwa [if_pos hk] at h ⊢
    · rw [if_neg hk] at h ⊢
      exact ih h

/-- A key unbound in the left part of an append is looked up on the right. -/
theorem assocFind_append_none {β : Type} (m m' : List (String × β))
    (k : String) (h : assocFind m k = none) :
    assocFind (m ++ m') k = assocFind m' k := by
  induction m with
  | nil => rfl
  | cons p rest ih =>
    obtain ⟨k', v'⟩ := p
    by_cases hk : k' = k
    · simp [assocFind, hk] at h
    · simp only [List.cons_append, assocFind, if_neg hk] at h ⊢
      exact ih h

/-- Processing one discovery entry only ever appends to the mapping. -/
theorem addDmEntry_eq_append (m : List (String × String))
    (e : String × Option String) : ∃ d, addDmEntry m e = m ++ d := by
  obtain ⟨nm, oc⟩ := e
  cases oc with
  | none => exact ⟨[], by simp [addDmEntry]⟩
  | some c =>
    cases h : assocFind m (processedName c) with
    | some v => exact ⟨[], by simp [addDmEntry, assocEmplace, h]⟩
    | none =>
      exact ⟨[(processedName c, "/dev/block/" ++ nm)],
        by simp [addDmEntry, assocEmplace, h]⟩

/-- Processing a list of discovery entries only ever appends. -/
theorem addDmEntries_eq_append (l : List (String × Option String)) :
    ∀ m, ∃ d, addDmEntries m l = m ++ d := by
  induction l with
  | nil => exact fun m => ⟨[], by simp [addDmEntries]⟩
  | cons e rest ih =>
    intro m
    obtain ⟨d1, hd1⟩ := addDmEntry_eq_append m e
    obtain ⟨d2, hd2⟩ := ih (addDmEntry m e)
    exact ⟨d1 ++ d2, by rw [addDmEntries, hd2, hd1, List.append_assoc]⟩

/-- An existing binding survives the processing of further entries, because
emplace never overwrites. -/
theorem addDmEntries_preserves (l : List (String × Option String))
    (m : List (String × String)) (k v : String)
    (h : assocFind m k = some v) :
    assocFind (addDmEntries m l) k = some v := by
  obtain ⟨d, hd⟩ := addDmEntries_eq_append l m
  rw [hd]
  exact assocFind_append_some _ _ _ _ h

/-- Main induction for discovery: when the processed names of the entries
are pairwise distinct and none is already bound, every readable entry ends
up bound to its own device node path. -/
theorem addDmEntries_records (l : List (String × Option String)) :
    ∀ m : List (String × String),
      (readableNames l).Nodup →
      (∀ n ∈ readableNames l, assocFind m n = none) →
      ∀ nm c, (nm, some c) ∈ l →
        assocFind (addDmEntries m l) (processedName c) =
          some ("/dev/block/" ++ nm) := by
  induction l with
  | nil => intro m _ _ nm c hmem; simp at hmem
  | cons e rest ih =>
    intro m hnd hnone nm c hmem
    obtain ⟨nm0, oc0⟩ := e
    cases oc0 with
    | none =>
      have hstep : addDmEntry m (nm0, none) = m := rfl
      have hmem' : (nm, some c) ∈ rest := by
        rcases List.mem_cons.mp hmem with h | h
        · exact absurd (congrArg Prod.snd h) (by simp)
        · exact h
      rw [addDmEntries, hstep]
      exact ih m (by simpa [readableNames] using hnd)
        (fun n hn => hnone n (by simpa [readableNames] using hn)) nm c hmem'
    | some c0 =>
      have hnames : readableNames ((nm0, some c0) :: rest) =
          processedName c0 :: readableNames rest := by
        simp [readableNames]
      rw [hnames] at hnd hnone
      have h0 : assocFind m (processedName c0) = none :=
        hnone _ (List.mem_cons_self _ _)
      have hstep : addDmEntry m (nm0, some c0) =
          m ++ [(processedName c0, "/dev/block/" ++ nm0)] := by
        simp [addDmEntry, assocEmplace, h0]
      have hfresh : processedName c0 ∉ readableNames rest :=
        (List.nodup_cons.mp hnd).1
      rw [addDmEntries, hstep]
      rcases List.mem_cons.mp hmem with h | h
      · have h1 : nm = nm0 := congrArg Prod.fst h
        have h2 : c = c0 := by
          have := congrArg Prod.snd h
          simpa using this
        subst h1
        subst h2
        apply addDmEntries_preserves
        rw [assocFind_append_none _ _ _ h0]
        simp [assocFind]
      · apply ih _ (List.nodup_cons.mp hnd).2 _ nm c h
        intro n hn
        rw [assocFind_append_none _ _ _ (hnone n (List.mem_cons_of_mem _ hn))]
        have : processedName c0 ≠ n := fun he => hfresh (he ▸ hn)
        simp [assocFind, this]

/-- Readable names commute with reversing the entry list. -/
theorem readableNames_reverse (l : List (String × Option String)) :
    readableNames l.reverse = (readableNames l).reverse := by
  induction l with
  | nil => rfl
  | cons e t ih =>
    obtain ⟨nm, oc⟩ := e
    simp only [readableNames] at ih ⊢
    cases oc with
    | none =>
      simp [List.reverse_cons, List.filterMap_append, List.filterMap_cons, ih]
    | some c =>
      simp [List.reverse_cons, List.filterMap_append, List.filterMap_cons, ih]

/-- Counterexample to claim C9 as stated: two dm entries report the same
logical name foo; the reversed iteration order and the non-overwriting
emplace leave foo paired with the device path of dm-1, so the entry dm-0 is
not recorded with its own corresponding path. -/
theorem c9_counterexample :
    (("dm-0", some "foo") ∈ ([("dm-0", some "foo"), ("dm-1", some "foo")] :
        List (String × Option String))) ∧
      assocFind (FindDmPartitions
          [("dm-0", some "foo"), ("dm-1", some "foo")])
        (renameVroot (strTrim "foo")) = some "/dev/block/dm-1" ∧
      ("/dev/block/dm-1" : String) ≠ "/dev/block/dm-0" := by decide

/-- Claim C9 as amended: when the trimmed, vroot-renamed logical names of
the readable dm entries are pairwise distinct, every readable entry is
recorded in the discovery mapping under its trimmed name — with vroot
renamed to system — paired with its own /dev/block device node path. -/
theorem c9_names_recorded (entries : List (String × Option String))
    (hnd : (readableNames entries).Nodup) :
    ∀ nm c, (nm, some c) ∈ entries →
      assocFind (FindDmPartitions entries) (renameVroot (strTrim c)) =
        some ("/dev/block/" ++ nm) := by
  intro nm c hmem
  unfold FindDmPartitions
  exact addDmEntries_records entries.reverse []
    (by rw [readableNames_reverse]; exact List.nodup_reverse.mpr hnd)
    (fun n _ => rfl) nm c (List.mem_reverse.mpr hmem)

/-- Witness for the amended C9: a vroot entry is recorded under system and a
second entry passes through trimmed. -/
theorem c9_names_recorded_w :
    (readableNames [("dm-0", some "vroot"), ("dm-1", some " foo ")]).Nodup ∧
      assocFind (FindDmPartitions
          [("dm-0", some "vroot"), ("dm-1", some " foo ")])
        (renameVroot (strTrim "vroot")) = some ("/dev/block/" ++ "dm-0") :=
  ⟨by decide,
    c9_names_recorded _ (by decide) "dm-0" "vroot" (by decide)⟩

/-- Claim C10: in every run in which isSlotMarkedSuccessful reports anything
other than FALSE, including INVALID_SLOT, the orchestrator performs no
verification, never calls markBootSuccessful, never requests a reboot, and
exits with status 0. -/
theorem c10_not_false_is_noop (env : Env) (bc : BootCtrl)
    (hb : env.bootCtrl = some bc)
    (hs : bc.isSuccessful ≠ BoolResult.FALSE) :
    update_verifier env = ⟨false, false, false, false, some 0⟩ := by
  simp [update_verifier, hb, hs]

/-- Witness for C10 at the INVALID_SLOT result. -/
theorem c10_not_false_is_noop_w :
    (BoolResult.INVALID_SLOT ≠ BoolResult.FALSE) ∧
      update_verifier ⟨some ⟨0, BoolResult.INVALID_SLOT, false⟩, "enforcing",
          Except.ok [("system", [(0, 1)])], [("dm-0", some "system")],
          (fun _ => devAllOk), 4⟩ =
        ⟨false, false, false, false, some 0⟩ :=
  ⟨by decide,
    c10_not_false_is_noop _ ⟨0, BoolResult.INVALID_SLOT, false⟩ rfl
      (by decide)⟩

end UV
